import Mathlib

/-!
# Verification of `get_mut_drop_weak`

Shallow embedding of the Rust crate `get_mut_drop_weak` (src/src/lib.rs).

The crate exports a single function

  `pub fn get_mut_drop_weak<T>(arc: &mut Arc<T>) -> Result<&mut T, &mut Arc<T>>`

built on top of `std::sync::Arc`.  We model the relevant fragment of the
`Arc` runtime explicitly: a heap is a list of reference-counted cells, each
holding a strong count, a (caller-visible) weak count and an optional
payload (`none` models uninitialized storage, as produced by
`Arc::new_uninit`).  Addresses are indices into the list; fresh allocations
append, so an address is never reused while we reason about it (in Rust the
outstanding `Weak` handles keep the control block alive, so a severed cell's
address likewise cannot be recycled while those handles exist).

The heap also carries `drops`, a global counter of how many times a
payload's destructor (`Drop::drop`) has been executed; it is the observable
for the teardown-exactly-once claims.

Mutable references into a cell's payload and handles held in the caller's
`arc` variable are both represented by the address of the cell they point
at.  Concurrency is modelled by an interference window: the list of
primitive `Arc` operations (`EnvOp`) other threads perform between the
entry checks of `get_mut_drop_weak` and the atomic `Arc::try_unwrap`
instant, which is the race the source code and its documentation discuss.
-/

namespace GetMutDropWeak

/-- One reference-counted cell: `std::sync::Arc`'s allocation, holding the
strong count, the caller-visible weak count, and the payload
(`none` = uninitialized storage, as in `Arc<MaybeUninit<T>>`). -/
structure Cell (V : Type) where
  strong : Nat
  weak : Nat
  value : Option V
deriving Repr, DecidableEq

/-- The heap: cells addressed by list index, plus a global count of how many
times a payload destructor has run. -/
structure Heap (V : Type) where
  cells : List (Cell V)
  drops : Nat
deriving Repr, DecidableEq

variable {V : Type}

/-- The empty heap. -/
def Heap.empty : Heap V := ⟨[], 0⟩

/-- Read the cell at address `a` (a deallocated/never-allocated address reads
as a dead cell). -/
def Heap.getCell (h : Heap V) (a : Nat) : Cell V :=
  h.cells.getD a ⟨0, 0, none⟩

/-- Overwrite the cell at address `a`. -/
def Heap.setCell (h : Heap V) (a : Nat) (c : Cell V) : Heap V :=
  ⟨h.cells.set a c, h.drops⟩

/-- `Arc::strong_count`. -/
def Heap.strongCount (h : Heap V) (a : Nat) : Nat := (h.getCell a).strong

/-- `Arc::weak_count` (caller-visible weak count). -/
def Heap.weakCount (h : Heap V) (a : Nat) : Nat := (h.getCell a).weak

/-- `Arc::new(v)`: allocate a fresh cell with `strong = 1`, `weak = 0`,
payload `v`; returns the new heap and the address of the cell. -/
def arcNew (h : Heap V) (v : V) : Heap V × Nat :=
  (⟨h.cells ++ [⟨1, 0, some v⟩], h.drops⟩, h.cells.length)

/-- `Arc::new_uninit()`: allocate a fresh cell with `strong = 1`, `weak = 0`
and uninitialized storage. -/
def arcNewUninit (h : Heap V) : Heap V × Nat :=
  (⟨h.cells ++ [⟨1, 0, none⟩], h.drops⟩, h.cells.length)

/-- `Arc::get_mut(arc).is_some()`: true iff the handle is the sole strong
reference and no weak references exist. -/
def getMutPossible (h : Heap V) (a : Nat) : Bool :=
  h.strongCount a = 1 && h.weakCount a = 0

/-- `Arc::clone`: increments the strong count.  A clone can only be made by a
thread holding a live handle, so the operation is a no-op on a cell with no
owner. -/
def cloneArc (h : Heap V) (a : Nat) : Heap V :=
  let c := h.getCell a
  if 0 < c.strong then h.setCell a ⟨c.strong + 1, c.weak, c.value⟩ else h

/-- `Arc::downgrade`: increments the weak count; the weak handle produced is
the address `a` itself. -/
def downgrade (h : Heap V) (a : Nat) : Heap V :=
  let c := h.getCell a
  h.setCell a ⟨c.strong, c.weak + 1, c.value⟩

/-- `Weak::upgrade`: a single atomic step that succeeds (incrementing the
strong count) iff the strong count is positive at that instant. -/
def upgrade (h : Heap V) (a : Nat) : Heap V × Bool :=
  let c := h.getCell a
  if 0 < c.strong then (h.setCell a ⟨c.strong + 1, c.weak, c.value⟩, true)
  else (h, false)

/-- Dropping an `Arc` handle: decrements the strong count; when it reaches 0
the payload's destructor runs (incrementing `drops`) and the payload slot is
vacated.  Dropping an `Arc<MaybeUninit<T>>` frees the storage without
running any destructor, which the `value = none` case models. -/
def dropArc (h : Heap V) (a : Nat) : Heap V :=
  let c := h.getCell a
  if c.strong = 1 then
    ⟨h.cells.set a ⟨0, c.weak, none⟩,
      h.drops + (if c.value.isSome then 1 else 0)⟩
  else if 1 < c.strong then h.setCell a ⟨c.strong - 1, c.weak, c.value⟩
  else h

/-- Dropping a `Weak` handle: decrements the weak count. -/
def dropWeak (h : Heap V) (a : Nat) : Heap V :=
  let c := h.getCell a
  h.setCell a ⟨c.strong, c.weak - 1, c.value⟩

/-- `Arc::try_unwrap`: a single atomic compare-and-act against the strong
count.  Iff the strong count is exactly 1 at this instant (so the payload is
present), the payload is moved out (no destructor runs) and the cell is left
with no owner; otherwise nothing at all is mutated and the handle is given
back. -/
def tryUnwrap (h : Heap V) (a : Nat) : Heap V × Option V :=
  let c := h.getCell a
  match c.value, c.strong with
  | some v, 1 => (h.setCell a ⟨0, c.weak, none⟩, some v)
  | _, _ => (h, none)

/-- A primitive `Arc` operation another thread may perform concurrently on a
cell it holds a handle to. -/
inductive EnvOp where
  | clone (a : Nat)
  | down (a : Nat)
  | up (a : Nat)
  | dropA (a : Nat)
  | dropW (a : Nat)
deriving Repr, DecidableEq

/-- The address an environment operation acts on. -/
def EnvOp.addr : EnvOp → Nat
  | .clone a => a
  | .down a => a
  | .up a => a
  | .dropA a => a
  | .dropW a => a

/-- Effect of one environment operation. -/
def estep (h : Heap V) : EnvOp → Heap V
  | .clone a => cloneArc h a
  | .down a => downgrade h a
  | .up a => (upgrade h a).1
  | .dropA a => dropArc h a
  | .dropW a => dropWeak h a

/-- Effect of a sequence of environment operations. -/
def esteps (h : Heap V) (ops : List EnvOp) : Heap V := ops.foldl estep h

/-- Outcome of `get_mut_drop_weak`.  `ok a` is `Ok(&mut T)` with the
returned reference (and the caller's `arc` variable) backed by the cell at
address `a`; `err a` is `Err(&mut Arc<T>)` with the caller's variable still
holding a handle to the cell at `a`; `panicked` is the allocation-failure
panic. -/
inductive GMRes where
  | ok (a : Nat)
  | err (a : Nat)
  | panicked
deriving Repr, DecidableEq

/-- Shallow embedding of `get_mut_drop_weak` (src/src/lib.rs, lines 33-87).

* `allocOk` is the allocation oracle: `false` makes `Arc::new_uninit` panic.
* `env` is the interference window: the primitive operations other threads
  perform between the entry checks and the atomic `Arc::try_unwrap` instant.
* `a` is the address held by the caller's `arc` variable.

Returns the final heap and the outcome. -/
def getMutDropWeak (allocOk : Bool) (env : List EnvOp) (h : Heap V) (a : Nat) :
    Heap V × GMRes :=
  -- `if Arc::get_mut(arc).is_some() { return Ok(...) }`
  if getMutPossible h a then (h, .ok a)
  -- `if Arc::strong_count(arc) > 1 { return Err(arc) }`
  else if 1 < h.strongCount a then (h, .err a)
  -- `let mut preallocated_arc: Arc<MaybeUninit<T>> = Arc::new_uninit();`
  -- panics on allocation failure, before any mutation
  else if allocOk then
    let alloc := arcNewUninit h
    let na := alloc.2
    -- other threads act between the checks and the atomic take instant
    let h2 := esteps alloc.1 env
    -- `match Arc::try_unwrap(original_arc)`
    match tryUnwrap h2 a with
    | (h3, some v) =>
      -- `slot.write(value)`, `assume_init`, `ptr::write(arc, final_arc)`
      let c := h3.getCell na
      (h3.setCell na ⟨c.strong, c.weak, some v⟩, .ok na)
    | (h3, none) =>
      -- `ptr::write(arc, restored_arc); Err(arc)`;
      -- `preallocated_arc` is dropped when the function returns
      (dropArc h3 na, .err a)
  else (h, .panicked)

/-- A step the whole system may take: either a primitive `Arc` operation by
some thread, or a call to `get_mut_drop_weak` (with its own allocation
oracle and interference window). -/
inductive Op where
  | env (e : EnvOp)
  | gmdw (allocOk : Bool) (intf : List EnvOp) (a : Nat)
deriving Repr, DecidableEq

/-- Effect of one system step on the heap. -/
def step (h : Heap V) : Op → Heap V
  | .env e => estep h e
  | .gmdw allocOk intf a => (getMutDropWeak allocOk intf h a).1

/-- Effect of a sequence of system steps. -/
def run (h : Heap V) (ops : List Op) : Heap V := ops.foldl step h

/-- Number of live (initialized) payloads on the heap. -/
def livePayloads (h : Heap V) : Nat :=
  h.cells.countP (fun c => c.value.isSome)

/-- A step the whole system may take is legal when the interference ops a
`get_mut_drop_weak` call races against touch only cells that already exist
(other threads cannot reach the call's private fresh allocation). -/
def opOKb (h : Heap V) : Op → Bool
  | .env _ => true
  | .gmdw _ intf _ => intf.all (fun e => e.addr < h.cells.length)

/-- Legality of a whole run, checked state by state. -/
def legalb (h : Heap V) : List Op → Bool
  | [] => true
  | op :: rest => opOKb h op && legalb (step h op) rest

/-- Every cell of the heap has lost all its owners (all handles dropped). -/
def allStrongZero (h : Heap V) : Bool :=
  h.cells.all (fun c => c.strong == 0)

end GetMutDropWeak

namespace GetMutDropWeak

variable {V : Type}

/-! ### Basic heap lemmas -/

theorem getCell_setCell (h : Heap V) (b a : Nat) (c : Cell V) :
    (h.setCell b c).getCell a =
      if b = a ∧ b < h.cells.length then c else h.getCell a := by
  simp only [Heap.setCell, Heap.getCell, List.getD, List.get?_eq_getElem?]
  rw [List.getElem?_set]
  split
  · next heq =>
    subst heq
    by_cases hb : b < h.cells.length
    · simp [hb]
    · simp [hb, List.getElem?_eq_none (Nat.le_of_not_lt hb)]
  · next hne =>
    have : ¬ (b = a ∧ b < h.cells.length) := by
      intro hcon; exact hne hcon.1
    simp [this]

theorem getCell_setCell_self (h : Heap V) (b : Nat) (c : Cell V)
    (hb : b < h.cells.length) : (h.setCell b c).getCell b = c := by
  rw [getCell_setCell]; simp [hb]

theorem getCell_setCell_ne (h : Heap V) (b a : Nat) (c : Cell V)
    (hne : b ≠ a) : (h.setCell b c).getCell a = h.getCell a := by
  rw [getCell_setCell]; simp [hne]

theorem setCell_length (h : Heap V) (b : Nat) (c : Cell V) :
    (h.setCell b c).cells.length = h.cells.length := by
  simp [Heap.setCell]

theorem setCell_drops (h : Heap V) (b : Nat) (c : Cell V) :
    (h.setCell b c).drops = h.drops := rfl

theorem arcNewUninit_length (h : Heap V) :
    ((arcNewUninit h).1).cells.length = h.cells.length + 1 := by
  simp [arcNewUninit]

theorem arcNewUninit_getCell_old (h : Heap V) (a : Nat) (ha : a < h.cells.length) :
    ((arcNewUninit h).1).getCell a = h.getCell a := by
  simp only [arcNewUninit, Heap.getCell]
  exact List.getD_append _ _ _ _ ha

theorem arcNewUninit_getCell_fresh (h : Heap V) :
    ((arcNewUninit h).1).getCell h.cells.length = ⟨1, 0, none⟩ := by
  simp only [arcNewUninit, Heap.getCell, List.getD, List.get?_eq_getElem?]
  rw [List.getElem?_concat_length]
  rfl

theorem arcNewUninit_drops (h : Heap V) : ((arcNewUninit h).1).drops = h.drops := rfl

end GetMutDropWeak

namespace GetMutDropWeak

variable {V : Type}

/-! ### Environment-step lemmas -/

theorem getCell_mk_set (l : List (Cell V)) (d b a : Nat) (c : Cell V) :
    Heap.getCell ⟨l.set b c, d⟩ a =
      if b = a ∧ b < l.length then c else Heap.getCell ⟨l, d⟩ a := by
  have := getCell_setCell (V := V) ⟨l, d⟩ b a c
  simpa [Heap.setCell] using this

theorem estep_length (h : Heap V) (e : EnvOp) :
    (estep h e).cells.length = h.cells.length := by
  cases e with
  | clone a => simp only [estep, cloneArc]; split <;> simp [setCell_length]
  | down a => simp [estep, downgrade, setCell_length]
  | up a => simp only [estep, upgrade]; split <;> simp [setCell_length]
  | dropA a =>
    simp only [estep, dropArc]
    split
    · simp
    · split <;> simp [setCell_length]
  | dropW a => simp [estep, dropWeak, setCell_length]

theorem esteps_length (h : Heap V) (ops : List EnvOp) :
    (esteps h ops).cells.length = h.cells.length := by
  induction ops generalizing h with
  | nil => rfl
  | cons e rest ih =>
    show (esteps (estep h e) rest).cells.length = _
    rw [ih, estep_length]

theorem estep_getCell_ne (h : Heap V) (e : EnvOp) (a : Nat) (hne : e.addr ≠ a) :
    (estep h e).getCell a = h.getCell a := by
  cases e with
  | clone b =>
    simp only [EnvOp.addr] at hne
    simp only [estep, cloneArc]
    split
    · exact getCell_setCell_ne _ _ _ _ hne
    · rfl
  | down b =>
    simp only [EnvOp.addr] at hne
    simp only [estep, downgrade]
    exact getCell_setCell_ne _ _ _ _ hne
  | up b =>
    simp only [EnvOp.addr] at hne
    simp only [estep, upgrade]
    split
    · exact getCell_setCell_ne _ _ _ _ hne
    · rfl
  | dropA b =>
    simp only [EnvOp.addr] at hne
    simp only [estep, dropArc]
    split
    · exact getCell_setCell_ne (h := h) _ _ _ hne
    · split
      · exact getCell_setCell_ne _ _ _ _ hne
      · rfl
  | dropW b =>
    simp only [EnvOp.addr] at hne
    simp only [estep, dropWeak]
    exact getCell_setCell_ne _ _ _ _ hne

theorem esteps_getCell_ne (h : Heap V) (ops : List EnvOp) (a : Nat)
    (hne : ∀ e ∈ ops, e.addr ≠ a) :
    (esteps h ops).getCell a = h.getCell a := by
  induction ops generalizing h with
  | nil => rfl
  | cons e rest ih =>
    show (esteps (estep h e) rest).getCell a = _
    rw [ih _ fun x hx => hne x (List.mem_cons_of_mem _ hx),
      estep_getCell_ne _ _ _ (hne e (List.mem_cons_self _ _))]

theorem estep_strong_zero (h : Heap V) (e : EnvOp) (a : Nat)
    (h0 : (h.getCell a).strong = 0) : ((estep h e).getCell a).strong = 0 := by
  by_cases haddr : e.addr = a
  · cases e with
    | clone b =>
      simp only [EnvOp.addr] at haddr; subst haddr
      simp [estep, cloneArc, h0]
    | down b =>
      simp only [EnvOp.addr] at haddr; subst haddr
      simp only [estep, downgrade]
      rw [getCell_setCell]
      split <;> simp [h0]
    | up b =>
      simp only [EnvOp.addr] at haddr; subst haddr
      simp [estep, upgrade, h0]
    | dropA b =>
      simp only [EnvOp.addr] at haddr; subst haddr
      simp [estep, dropArc, h0]
    | dropW b =>
      simp only [EnvOp.addr] at haddr; subst haddr
      simp only [estep, dropWeak]
      rw [getCell_setCell]
      split <;> simp [h0]
  · rw [estep_getCell_ne _ _ _ haddr]; exact h0

theorem esteps_strong_zero (h : Heap V) (ops : List EnvOp) (a : Nat)
    (h0 : (h.getCell a).strong = 0) : ((esteps h ops).getCell a).strong = 0 := by
  induction ops generalizing h with
  | nil => exact h0
  | cons e rest ih =>
    show ((esteps (estep h e) rest).getCell a).strong = 0
    exact ih _ (estep_strong_zero _ _ _ h0)

theorem estep_value_none (h : Heap V) (e : EnvOp) (a : Nat)
    (h0 : (h.getCell a).value = none) : ((estep h e).getCell a).value = none := by
  by_cases haddr : e.addr = a
  · cases e with
    | clone b =>
      simp only [EnvOp.addr] at haddr; subst haddr
      simp only [estep, cloneArc]
      split
      · rw [getCell_setCell]; split <;> simp [h0]
      · exact h0
    | down b =>
      simp only [EnvOp.addr] at haddr; subst haddr
      simp only [estep, downgrade]
      rw [getCell_setCell]
      split <;> simp [h0]
    | up b =>
      simp only [EnvOp.addr] at haddr; subst haddr
      simp only [estep, upgrade]
      split
      · rw [getCell_setCell]; split <;> simp [h0]
      · exact h0
    | dropA b =>
      simp only [EnvOp.addr] at haddr; subst haddr
      simp only [estep, dropArc]
      split
      · rw [getCell_mk_set]; split <;> simp [h0]
      · split
        · rw [getCell_setCell]; split <;> simp [h0]
        · exact h0
    | dropW b =>
      simp only [EnvOp.addr] at haddr; subst haddr
      simp only [estep, dropWeak]
      rw [getCell_setCell]
      split <;> simp [h0]
  · rw [estep_getCell_ne _ _ _ haddr]; exact h0

theorem esteps_value_none (h : Heap V) (ops : List EnvOp) (a : Nat)
    (h0 : (h.getCell a).value = none) : ((esteps h ops).getCell a).value = none := by
  induction ops generalizing h with
  | nil => exact h0
  | cons e rest ih =>
    show ((esteps (estep h e) rest).getCell a).value = none
    exact ih _ (estep_value_none _ _ _ h0)

end GetMutDropWeak

namespace GetMutDropWeak

variable {V : Type}

/-! ### `tryUnwrap` and `getMutDropWeak` characterizations -/

theorem tryUnwrap_success (h : Heap V) (a : Nat) (v : V)
    (hv : (h.getCell a).value = some v) (hs : (h.getCell a).strong = 1) :
    tryUnwrap h a = (h.setCell a ⟨0, (h.getCell a).weak, none⟩, some v) := by
  simp only [tryUnwrap]
  split
  · next v' heqv heqs =>
    rw [hv] at heqv
    cases heqv
    rfl
  · next hnot =>
    exact (hnot v hv hs).elim

theorem tryUnwrap_fail (h : Heap V) (a : Nat)
    (hs : (h.getCell a).strong ≠ 1) : tryUnwrap h a = (h, none) := by
  simp only [tryUnwrap]
  split
  · next v' heqv heqs => exact (hs heqs).elim
  · rfl

theorem getMutDropWeak_exclusive (allocOk : Bool) (env : List EnvOp)
    (h : Heap V) (a : Nat) (hgm : getMutPossible h a = true) :
    getMutDropWeak allocOk env h a = (h, .ok a) := by
  simp [getMutDropWeak, hgm]

theorem getMutDropWeak_shared (allocOk : Bool) (env : List EnvOp)
    (h : Heap V) (a : Nat) (hgm : getMutPossible h a = false)
    (hs : 1 < h.strongCount a) :
    getMutDropWeak allocOk env h a = (h, .err a) := by
  simp [getMutDropWeak, hgm, hs]

theorem getMutDropWeak_panic (env : List EnvOp) (h : Heap V) (a : Nat)
    (hgm : getMutPossible h a = false) (hs : ¬ 1 < h.strongCount a) :
    getMutDropWeak false env h a = (h, .panicked) := by
  simp [getMutDropWeak, hgm, hs]

theorem getMutDropWeak_reloc (env : List EnvOp) (h : Heap V) (a : Nat)
    (hgm : getMutPossible h a = false) (hs : ¬ 1 < h.strongCount a) :
    getMutDropWeak true env h a =
      (match tryUnwrap (esteps (arcNewUninit h).1 env) a with
       | (h3, some v) =>
         (h3.setCell h.cells.length
            ⟨(h3.getCell h.cells.length).strong,
              (h3.getCell h.cells.length).weak, some v⟩,
           GMRes.ok h.cells.length)
       | (h3, none) => (dropArc h3 h.cells.length, GMRes.err a)) := by
  simp [getMutDropWeak, hgm, hs, arcNewUninit]

end GetMutDropWeak

namespace GetMutDropWeak

variable {V : Type}

/-! ### Destructor accounting: `drops + livePayloads` is conserved -/

theorem countP_set_add (p : Cell V → Bool) (l : List (Cell V)) (n : Nat)
    (c : Cell V) (hn : n < l.length) :
    (l.set n c).countP p + (if p (l.getD n ⟨0, 0, none⟩) then 1 else 0) =
      l.countP p + (if p c then 1 else 0) := by
  induction l generalizing n with
  | nil => simp at hn
  | cons hd tl ih =>
    cases n with
    | zero =>
      simp only [List.set_cons_zero, List.countP_cons, List.getD_cons_zero]
      omega
    | succ m =>
      simp only [List.set_cons_succ, List.countP_cons, List.getD_cons_succ]
      have := ih m (by simpa using hn)
      omega

theorem getD_eq_getCell (h : Heap V) (a : Nat) :
    h.cells.getD a ⟨0, 0, none⟩ = h.getCell a := rfl

theorem getCell_default (h : Heap V) (a : Nat) (ha : ¬ a < h.cells.length) :
    h.getCell a = ⟨0, 0, none⟩ :=
  List.getD_eq_default _ _ (Nat.le_of_not_lt ha)

theorem livePayloads_setCell_add (h : Heap V) (b : Nat) (c : Cell V)
    (hb : b < h.cells.length) :
    livePayloads (h.setCell b c) + (if (h.getCell b).value.isSome then 1 else 0) =
      livePayloads h + (if c.value.isSome then 1 else 0) := by
  have h0 := countP_set_add (fun c => c.value.isSome) h.cells b c hb
  rw [getD_eq_getCell] at h0
  exact h0

theorem livePayloads_setCell_same (h : Heap V) (b : Nat) (c : Cell V)
    (hsome : c.value.isSome = (h.getCell b).value.isSome) :
    livePayloads (h.setCell b c) = livePayloads h := by
  by_cases hb : b < h.cells.length
  · have := livePayloads_setCell_add h b c hb
    rw [hsome] at this
    omega
  · simp [Heap.setCell, List.set_eq_of_length_le (Nat.le_of_not_lt hb), livePayloads]

theorem estep_drops_live (h : Heap V) (e : EnvOp) :
    (estep h e).drops + livePayloads (estep h e) = h.drops + livePayloads h := by
  cases e with
  | clone b =>
    simp only [estep, cloneArc]
    split
    · rw [setCell_drops, livePayloads_setCell_same h b
        ⟨(h.getCell b).strong + 1, (h.getCell b).weak, (h.getCell b).value⟩ rfl]
    · rfl
  | down b =>
    simp only [estep, downgrade]
    rw [setCell_drops, livePayloads_setCell_same h b
      ⟨(h.getCell b).strong, (h.getCell b).weak + 1, (h.getCell b).value⟩ rfl]
  | up b =>
    show (upgrade h b).1.drops + livePayloads (upgrade h b).1 = _
    simp only [upgrade]
    split
    · rw [setCell_drops, livePayloads_setCell_same h b
        ⟨(h.getCell b).strong + 1, (h.getCell b).weak, (h.getCell b).value⟩ rfl]
    · rfl
  | dropA b =>
    simp only [estep, dropArc]
    split
    · next hstrong =>
      have hb : b < h.cells.length := by
        by_contra hb
        rw [getCell_default h b hb] at hstrong
        simp at hstrong
      have hcnt := countP_set_add (fun c => c.value.isSome) h.cells b
        ⟨0, (h.getCell b).weak, none⟩ hb
      rw [getD_eq_getCell] at hcnt
      simp only [livePayloads]
      simp only [Option.isSome_none, Bool.false_eq_true, if_false] at hcnt
      omega
    · split
      · rw [setCell_drops, livePayloads_setCell_same h b
          ⟨(h.getCell b).strong - 1, (h.getCell b).weak, (h.getCell b).value⟩ rfl]
      · rfl
  | dropW b =>
    simp only [estep, dropWeak]
    rw [setCell_drops, livePayloads_setCell_same h b
      ⟨(h.getCell b).strong, (h.getCell b).weak - 1, (h.getCell b).value⟩ rfl]

theorem esteps_drops_live (h : Heap V) (ops : List EnvOp) :
    (esteps h ops).drops + livePayloads (esteps h ops) =
      h.drops + livePayloads h := by
  induction ops generalizing h with
  | nil => rfl
  | cons e rest ih =>
    have hstep : esteps h (e :: rest) = esteps (estep h e) rest := rfl
    rw [hstep, ih (estep h e), estep_drops_live]

theorem tryUnwrap_none_heap (h : Heap V) (a : Nat) (h' : Heap V)
    (htu : tryUnwrap h a = (h', none)) : h' = h := by
  simp only [tryUnwrap] at htu
  split at htu
  · simp at htu
  · exact (Prod.mk.injEq _ _ _ _ ▸ htu).1.symm

theorem tryUnwrap_some_spec (h : Heap V) (a : Nat) (h' : Heap V) (v : V)
    (htu : tryUnwrap h a = (h', some v)) :
    (h.getCell a).value = some v ∧ (h.getCell a).strong = 1 ∧
      h' = h.setCell a ⟨0, (h.getCell a).weak, none⟩ := by
  simp only [tryUnwrap] at htu
  split at htu
  · next v' heqv heqs =>
    obtain ⟨h1, h2⟩ := Prod.mk.injEq _ _ _ _ ▸ htu
    cases h2
    exact ⟨heqv, heqs, h1.symm⟩
  · simp at htu

end GetMutDropWeak

namespace GetMutDropWeak

variable {V : Type}

theorem arcNewUninit_live (h : Heap V) :
    livePayloads (arcNewUninit h).1 = livePayloads h := by
  simp [livePayloads, arcNewUninit, List.countP_append]

theorem getMutDropWeak_drops_live (allocOk : Bool) (env : List EnvOp)
    (h : Heap V) (a : Nat) :
    ((getMutDropWeak allocOk env h a).1).drops +
        livePayloads (getMutDropWeak allocOk env h a).1 =
      h.drops + livePayloads h := by
  by_cases hgm : getMutPossible h a
  · rw [getMutDropWeak_exclusive _ _ _ _ hgm]
  · replace hgm : getMutPossible h a = false := by simpa using hgm
    by_cases hstr : 1 < h.strongCount a
    · rw [getMutDropWeak_shared _ _ _ _ hgm hstr]
    · cases allocOk with
      | false => rw [getMutDropWeak_panic _ _ _ hgm hstr]
      | true =>
        rw [getMutDropWeak_reloc _ _ _ hgm hstr]
        have h1eq : ((arcNewUninit h).1).drops + livePayloads (arcNewUninit h).1 =
            h.drops + livePayloads h := by
          rw [arcNewUninit_drops, arcNewUninit_live]
        have h2eq := esteps_drops_live (arcNewUninit h).1 env
        set h2 := esteps (arcNewUninit h).1 env with hh2
        have hnaval : (h2.getCell h.cells.length).value = none := by
          rw [hh2]
          exact esteps_value_none _ _ _ (by rw [arcNewUninit_getCell_fresh])
        have hnalen : h.cells.length < h2.cells.length := by
          rw [hh2, esteps_length, arcNewUninit_length]
          omega
        rcases htu : tryUnwrap h2 a with ⟨h3, ov⟩
        cases ov with
        | none =>
          have h3eq : h3 = h2 := tryUnwrap_none_heap _ _ _ htu
          subst h3eq
          dsimp only
          have hd := estep_drops_live h2 (.dropA h.cells.length)
          simp only [estep] at hd
          omega
        | some v =>
          obtain ⟨hval, hstrong1, h3eq⟩ := tryUnwrap_some_spec _ _ _ _ htu
          have halen : a < h2.cells.length := by
            by_contra hc
            rw [getCell_default h2 a hc] at hval
            simp at hval
          -- moving the payload out of the original cell
          have hmove := livePayloads_setCell_add h2 a
            ⟨0, (h2.getCell a).weak, none⟩ halen
          rw [hval] at hmove
          simp only [Option.isSome_some, Option.isSome_none, if_true,
            Bool.false_eq_true, if_false] at hmove
          -- the fresh cell still holds no payload after the move-out
          have hane : a ≠ h.cells.length := by
            intro hcon
            rw [hcon, hnaval] at hval
            simp at hval
          have hnaval3 : (h3.getCell h.cells.length).value = none := by
            rw [h3eq, getCell_setCell_ne _ _ _ _ hane, hnaval]
          have hnalen3 : h.cells.length < h3.cells.length := by
            rw [h3eq, setCell_length]
            exact hnalen
          -- writing the payload into the fresh cell
          have hwrite := livePayloads_setCell_add h3 h.cells.length
            ⟨(h3.getCell h.cells.length).strong,
              (h3.getCell h.cells.length).weak, some v⟩ hnalen3
          rw [hnaval3] at hwrite
          simp only [Option.isSome_some, Option.isSome_none, if_true,
            Bool.false_eq_true, if_false] at hwrite
          have hd3 : h3.drops = h2.drops := by rw [h3eq, setCell_drops]
          have hl3 : livePayloads h3 + 1 = livePayloads h2 := by
            rw [h3eq]; omega
          dsimp only
          rw [setCell_drops]
          omega

theorem step_drops_live (h : Heap V) (op : Op) :
    (step h op).drops + livePayloads (step h op) = h.drops + livePayloads h := by
  cases op with
  | env e => exact estep_drops_live h e
  | gmdw allocOk intf a => exact getMutDropWeak_drops_live allocOk intf h a

theorem run_drops_live (h : Heap V) (ops : List Op) :
    (run h ops).drops + livePayloads (run h ops) = h.drops + livePayloads h := by
  induction ops generalizing h with
  | nil => rfl
  | cons op rest ih =>
    have hstep : run h (op :: rest) = run (step h op) rest := rfl
    rw [hstep, ih (step h op), step_drops_live]

end GetMutDropWeak

namespace GetMutDropWeak

variable {V : Type}

/-! ### The ownership invariant: a live payload always has an owner -/

/-- A heap is good when every cell still holding a payload has at least one
strong reference (in `Arc` the payload is dropped exactly when the last
strong reference goes away). -/
def goodHeap (h : Heap V) : Prop :=
  ∀ c ∈ h.cells, c.value.isSome → 0 < c.strong

theorem goodHeap_getCell (h : Heap V) (hg : goodHeap h) (a : Nat) :
    (h.getCell a).value.isSome → 0 < (h.getCell a).strong := by
  by_cases ha : a < h.cells.length
  · have : h.getCell a = h.cells[a] := List.getD_eq_getElem _ _ ha
    rw [this]
    exact hg _ (List.getElem_mem ha)
  · rw [getCell_default h a ha]
    simp

theorem goodHeap_setCell (h : Heap V) (b : Nat) (c : Cell V) (hg : goodHeap h)
    (hc : c.value.isSome → 0 < c.strong) : goodHeap (h.setCell b c) := by
  intro c' hc' hsome
  rcases List.mem_or_eq_of_mem_set hc' with hmem | rfl
  · exact hg c' hmem hsome
  · exact hc hsome

theorem estep_good (h : Heap V) (e : EnvOp) (hg : goodHeap h) :
    goodHeap (estep h e) := by
  cases e with
  | clone b =>
    simp only [estep, cloneArc]
    split
    · exact goodHeap_setCell h b _ hg (fun _ => Nat.succ_pos _)
    · exact hg
  | down b =>
    simp only [estep, downgrade]
    exact goodHeap_setCell h b _ hg (fun hs => goodHeap_getCell h hg b hs)
  | up b =>
    show goodHeap (upgrade h b).1
    simp only [upgrade]
    split
    · exact goodHeap_setCell h b _ hg (fun _ => Nat.succ_pos _)
    · exact hg
  | dropA b =>
    simp only [estep, dropArc]
    split
    · intro c' hc' hsome
      rcases List.mem_or_eq_of_mem_set hc' with hmem | rfl
      · exact hg c' hmem hsome
      · simp at hsome
    · split
      · next hne hlt =>
        exact goodHeap_setCell h b _ hg (fun _ => Nat.sub_pos_of_lt hlt)
      · exact hg
  | dropW b =>
    simp only [estep, dropWeak]
    exact goodHeap_setCell h b _ hg (fun hs => goodHeap_getCell h hg b hs)

theorem esteps_good (h : Heap V) (ops : List EnvOp) (hg : goodHeap h) :
    goodHeap (esteps h ops) := by
  induction ops generalizing h with
  | nil => exact hg
  | cons e rest ih =>
    show goodHeap (esteps (estep h e) rest)
    exact ih _ (estep_good h e hg)

theorem goodHeap_arcNewUninit (h : Heap V) (hg : goodHeap h) :
    goodHeap (arcNewUninit h).1 := by
  intro c hc hsome
  simp only [arcNewUninit, List.mem_append, List.mem_singleton] at hc
  rcases hc with hc | rfl
  · exact hg c hc hsome
  · simp at hsome

theorem getMutDropWeak_good (allocOk : Bool) (env : List EnvOp) (h : Heap V)
    (a : Nat) (henv : ∀ e ∈ env, e.addr < h.cells.length) (hg : goodHeap h) :
    goodHeap (getMutDropWeak allocOk env h a).1 := by
  by_cases hgm : getMutPossible h a
  · rw [getMutDropWeak_exclusive _ _ _ _ hgm]; exact hg
  · replace hgm : getMutPossible h a = false := by simpa using hgm
    by_cases hstr : 1 < h.strongCount a
    · rw [getMutDropWeak_shared _ _ _ _ hgm hstr]; exact hg
    · cases allocOk with
      | false => rw [getMutDropWeak_panic _ _ _ hgm hstr]; exact hg
      | true =>
        rw [getMutDropWeak_reloc _ _ _ hgm hstr]
        have hg2 : goodHeap (esteps (arcNewUninit h).1 env) :=
          esteps_good _ _ (goodHeap_arcNewUninit h hg)
        set h2 := esteps (arcNewUninit h).1 env with hh2
        have hna : h2.getCell h.cells.length = ⟨1, 0, none⟩ := by
          rw [hh2, esteps_getCell_ne _ _ _
            (fun e he => Nat.ne_of_lt (henv e he)),
            arcNewUninit_getCell_fresh]
        rcases htu : tryUnwrap h2 a with ⟨h3, ov⟩
        cases ov with
        | none =>
          have h3eq : h3 = h2 := tryUnwrap_none_heap _ _ _ htu
          subst h3eq
          dsimp only
          have := estep_good h2 (.dropA h.cells.length) hg2
          simpa [estep] using this
        | some v =>
          obtain ⟨hval, hstrong1, h3eq⟩ := tryUnwrap_some_spec _ _ _ _ htu
          dsimp only
          have hane : a ≠ h.cells.length := by
            intro hcon
            rw [hcon, hna] at hval
            simp at hval
          have hg3 : goodHeap h3 := by
            rw [h3eq]
            exact goodHeap_setCell h2 a _ hg2 (by simp)
          have hna3 : h3.getCell h.cells.length = ⟨1, 0, none⟩ := by
            rw [h3eq, getCell_setCell_ne _ _ _ _ hane, hna]
          exact goodHeap_setCell h3 _ _ hg3 (fun _ => by rw [hna3]; simp)

theorem step_good (h : Heap V) (op : Op) (hg : goodHeap h)
    (hok : opOKb h op = true) : goodHeap (step h op) := by
  cases op with
  | env e => exact estep_good h e hg
  | gmdw allocOk intf a =>
    simp only [opOKb, List.all_eq_true, decide_eq_true_eq] at hok
    exact getMutDropWeak_good allocOk intf h a hok hg

theorem run_good (h : Heap V) (ops : List Op) (hg : goodHeap h)
    (hlegal : legalb h ops = true) : goodHeap (run h ops) := by
  induction ops generalizing h with
  | nil => exact hg
  | cons op rest ih =>
    simp only [legalb, Bool.and_eq_true] at hlegal
    show goodHeap (run (step h op) rest)
    exact ih _ (step_good h op hg hlegal.1) hlegal.2

end GetMutDropWeak

namespace GetMutDropWeak

variable {V : Type}

/-! ### A severed cell can never regain an owner -/

theorem getMutDropWeak_length_bounds (allocOk : Bool) (env : List EnvOp)
    (h : Heap V) (b : Nat) :
    h.cells.length ≤ ((getMutDropWeak allocOk env h b).1).cells.length ∧
      ((getMutDropWeak allocOk env h b).1).cells.length ≤ h.cells.length + 1 := by
  by_cases hgm : getMutPossible h b
  · rw [getMutDropWeak_exclusive _ _ _ _ hgm]; dsimp only; omega
  · replace hgm : getMutPossible h b = false := by simpa using hgm
    by_cases hstr : 1 < h.strongCount b
    · rw [getMutDropWeak_shared _ _ _ _ hgm hstr]; dsimp only; omega
    · cases allocOk with
      | false => rw [getMutDropWeak_panic _ _ _ hgm hstr]; dsimp only; omega
      | true =>
        rw [getMutDropWeak_reloc _ _ _ hgm hstr]
        have h2len : (esteps (arcNewUninit h).1 env).cells.length =
            h.cells.length + 1 := by
          rw [esteps_length, arcNewUninit_length]
        set h2 := esteps (arcNewUninit h).1 env with hh2
        rcases htu : tryUnwrap h2 b with ⟨h3, ov⟩
        cases ov with
        | none =>
          have h3eq : h3 = h2 := tryUnwrap_none_heap _ _ _ htu
          subst h3eq
          dsimp only
          have := estep_length h2 (.dropA h.cells.length)
          simp only [estep] at this
          omega
        | some v =>
          obtain ⟨_, _, h3eq⟩ := tryUnwrap_some_spec _ _ _ _ htu
          dsimp only
          rw [setCell_length, h3eq, setCell_length, h2len]
          omega

theorem getMutDropWeak_strong_zero (allocOk : Bool) (env : List EnvOp)
    (h : Heap V) (b a : Nat) (ha : a < h.cells.length)
    (h0 : (h.getCell a).strong = 0) :
    (((getMutDropWeak allocOk env h b).1).getCell a).strong = 0 := by
  by_cases hgm : getMutPossible h b
  · rw [getMutDropWeak_exclusive _ _ _ _ hgm]; exact h0
  · replace hgm : getMutPossible h b = false := by simpa using hgm
    by_cases hstr : 1 < h.strongCount b
    · rw [getMutDropWeak_shared _ _ _ _ hgm hstr]; exact h0
    · cases allocOk with
      | false => rw [getMutDropWeak_panic _ _ _ hgm hstr]; exact h0
      | true =>
        rw [getMutDropWeak_reloc _ _ _ hgm hstr]
        have h20 : ((esteps (arcNewUninit h).1 env).getCell a).strong = 0 :=
          esteps_strong_zero _ _ _ (by rw [arcNewUninit_getCell_old h a ha]; exact h0)
        set h2 := esteps (arcNewUninit h).1 env with hh2
        have hane : h.cells.length ≠ a := Nat.ne_of_gt ha
        rcases htu : tryUnwrap h2 b with ⟨h3, ov⟩
        cases ov with
        | none =>
          have h3eq : h3 = h2 := tryUnwrap_none_heap _ _ _ htu
          subst h3eq
          dsimp only
          have := estep_getCell_ne h2 (.dropA h.cells.length) a hane
          simp only [estep, EnvOp.addr] at this
          rw [this]
          exact h20
        | some v =>
          obtain ⟨_, _, h3eq⟩ := tryUnwrap_some_spec _ _ _ _ htu
          dsimp only
          rw [getCell_setCell_ne _ _ _ _ hane, h3eq, getCell_setCell]
          split
          · rfl
          · exact h20

theorem step_strong_zero (h : Heap V) (op : Op) (a : Nat)
    (ha : a < h.cells.length) (h0 : (h.getCell a).strong = 0) :
    a < (step h op).cells.length ∧ ((step h op).getCell a).strong = 0 := by
  cases op with
  | env e =>
    refine ⟨?_, estep_strong_zero h e a h0⟩
    show a < (estep h e).cells.length
    rw [estep_length]
    exact ha
  | gmdw allocOk intf b =>
    refine ⟨?_, getMutDropWeak_strong_zero allocOk intf h b a ha h0⟩
    have := (getMutDropWeak_length_bounds allocOk intf h b).1
    show a < ((getMutDropWeak allocOk intf h b).1).cells.length
    omega

theorem run_strong_zero (h : Heap V) (ops : List Op) (a : Nat)
    (ha : a < h.cells.length) (h0 : (h.getCell a).strong = 0) :
    ((run h ops).getCell a).strong = 0 := by
  induction ops generalizing h with
  | nil => exact h0
  | cons op rest ih =>
    show ((run (step h op) rest).getCell a).strong = 0
    obtain ⟨ha', h0'⟩ := step_strong_zero h op a ha h0
    exact ih _ ha' h0'

end GetMutDropWeak

namespace GetMutDropWeak

variable {V : Type}

/-! ### Full characterization of the sequential relocation path -/

theorem getMutPossible_weakly (h : Heap V) (a w : Nat) (v : V)
    (hc : h.getCell a = ⟨1, w + 1, some v⟩) : getMutPossible h a = false := by
  simp [getMutPossible, Heap.strongCount, Heap.weakCount, hc]

theorem strongCount_weakly (h : Heap V) (a w : Nat) (v : V)
    (hc : h.getCell a = ⟨1, w + 1, some v⟩) : ¬ 1 < h.strongCount a := by
  simp [Heap.strongCount, hc]

theorem getMutDropWeak_success_spec (h : Heap V) (a w : Nat) (v : V)
    (ha : a < h.cells.length) (hc : h.getCell a = ⟨1, w + 1, some v⟩) :
    getMutDropWeak true [] h a =
      ((((arcNewUninit h).1).setCell a ⟨0, w + 1, none⟩).setCell h.cells.length
          ⟨1, 0, some v⟩,
        .ok h.cells.length) := by
  rw [getMutDropWeak_reloc _ _ _ (getMutPossible_weakly h a w v hc)
    (strongCount_weakly h a w v hc)]
  have h1a : ((arcNewUninit h).1).getCell a = ⟨1, w + 1, some v⟩ := by
    rw [arcNewUninit_getCell_old h a ha, hc]
  have hesteps : esteps (arcNewUninit h).1 [] = (arcNewUninit h).1 := rfl
  rw [hesteps, tryUnwrap_success _ _ v (by rw [h1a]) (by rw [h1a])]
  dsimp only
  rw [h1a]
  rw [getCell_setCell_ne _ _ _ _ (Nat.ne_of_lt ha), arcNewUninit_getCell_fresh]

end GetMutDropWeak

namespace GetMutDropWeak

variable {V : Type}

/-! ### While an owner remains, the payload stays in place -/

theorem estep_alive_value (h : Heap V) (e : EnvOp) (a : Nat) (v : V)
    (hq : (h.getCell a).strong = 0 ∨ (h.getCell a).value = some v) :
    ((estep h e).getCell a).strong = 0 ∨
      ((estep h e).getCell a).value = some v := by
  rcases hq with h0 | hv
  · exact Or.inl (estep_strong_zero h e a h0)
  · by_cases haddr : e.addr = a
    · cases e with
      | clone b =>
        simp only [EnvOp.addr] at haddr; subst haddr
        simp only [estep, cloneArc]
        split
        · right; rw [getCell_setCell]; split <;> simp [hv]
        · exact Or.inr hv
      | down b =>
        simp only [EnvOp.addr] at haddr; subst haddr
        simp only [estep, downgrade]
        right; rw [getCell_setCell]; split <;> simp [hv]
      | up b =>
        simp only [EnvOp.addr] at haddr; subst haddr
        show ((upgrade h b).1.getCell b).strong = 0 ∨
          ((upgrade h b).1.getCell b).value = some v
        simp only [upgrade]
        split
        · right; dsimp only; rw [getCell_setCell]; split <;> simp [hv]
        · exact Or.inr hv
      | dropA b =>
        simp only [EnvOp.addr] at haddr; subst haddr
        simp only [estep, dropArc]
        split
        · rw [getCell_mk_set]
          split
          · exact Or.inl rfl
          · exact Or.inr hv
        · split
          · right; rw [getCell_setCell]; split <;> simp [hv]
          · exact Or.inr hv
      | dropW b =>
        simp only [EnvOp.addr] at haddr; subst haddr
        simp only [estep, dropWeak]
        right; rw [getCell_setCell]; split <;> simp [hv]
    · rw [estep_getCell_ne _ _ _ haddr]; exact Or.inr hv

theorem esteps_alive_value (h : Heap V) (ops : List EnvOp) (a : Nat) (v : V)
    (hq : (h.getCell a).strong = 0 ∨ (h.getCell a).value = some v) :
    ((esteps h ops).getCell a).strong = 0 ∨
      ((esteps h ops).getCell a).value = some v := by
  induction ops generalizing h with
  | nil => exact hq
  | cons e rest ih =>
    show ((esteps (estep h e) rest).getCell a).strong = 0 ∨ _
    exact ih _ (estep_alive_value h e a v hq)

end GetMutDropWeak

namespace GetMutDropWeak

variable {V : Type}

/-! ### The claims -/

/-- C6: for every `Arc` whose cell has `strong_count == 1` and
`weak_count == 0`, `get_mut_drop_weak` succeeds and returns a mutable
reference directly into the existing cell: the result is `Ok` backed by the
original address `a`, and the heap — hence both counters and the cell
list's length (no allocation) — is completely unchanged. -/
theorem c6_exclusive_in_place (allocOk : Bool) (env : List EnvOp)
    (h : Heap V) (a : Nat) (h1 : h.strongCount a = 1)
    (h0 : h.weakCount a = 0) :
    getMutDropWeak allocOk env h a = (h, .ok a) :=
  getMutDropWeak_exclusive _ _ _ _ (by simp [getMutPossible, h1, h0])

/-- Witness for C6 on a concrete heap: one cell `strong = 1, weak = 0`
holding `10`, as in the test `test_exclusive_access_no_weak`. -/
theorem c6_exclusive_in_place_witness :
    Heap.strongCount (⟨[⟨1, 0, some 10⟩], 0⟩ : Heap Nat) 0 = 1 ∧
    Heap.weakCount (⟨[⟨1, 0, some 10⟩], 0⟩ : Heap Nat) 0 = 0 ∧
    getMutDropWeak true [] (⟨[⟨1, 0, some 10⟩], 0⟩ : Heap Nat) 0 =
      (⟨[⟨1, 0, some 10⟩], 0⟩, .ok 0) :=
  ⟨by decide, by decide,
    c6_exclusive_in_place true [] ⟨[⟨1, 0, some 10⟩], 0⟩ 0 (by decide) (by decide)⟩

/-- C7: for every `Arc` whose cell has `strong_count > 1` (any weak count),
`get_mut_drop_weak` fails with `Err` carrying the caller's own handle
(same address `a`), the heap — payload, both counters, allocation count —
is unchanged, and an immediately repeated call returns the identical
result with no accumulated side effect. -/
theorem c7_shared_fails_unchanged (allocOk allocOk' : Bool)
    (env env' : List EnvOp) (h : Heap V) (a : Nat)
    (hs : 1 < h.strongCount a) :
    getMutDropWeak allocOk env h a = (h, .err a) ∧
    getMutDropWeak allocOk' env' (getMutDropWeak allocOk env h a).1 a =
      (h, .err a) := by
  have hgm : getMutPossible h a = false := by
    have hne : ¬ h.strongCount a = 1 := by omega
    simp [getMutPossible, hne]
  have hone := getMutDropWeak_shared allocOk env h a hgm hs
  refine ⟨hone, ?_⟩
  rw [hone]
  exact getMutDropWeak_shared allocOk' env' h a hgm hs

/-- Witness for C7 on a concrete heap: one cell `strong = 2, weak = 0`
holding `5`, as in the test `test_strong_shared_no_mut`. -/
theorem c7_shared_fails_unchanged_witness :
    1 < Heap.strongCount (⟨[⟨2, 0, some 5⟩], 0⟩ : Heap Nat) 0 ∧
    (getMutDropWeak true [] (⟨[⟨2, 0, some 5⟩], 0⟩ : Heap Nat) 0 =
        (⟨[⟨2, 0, some 5⟩], 0⟩, .err 0) ∧
      getMutDropWeak true []
          (getMutDropWeak true [] (⟨[⟨2, 0, some 5⟩], 0⟩ : Heap Nat) 0).1 0 =
        (⟨[⟨2, 0, some 5⟩], 0⟩, .err 0)) :=
  ⟨by decide, c7_shared_fails_unchanged true true [] [] ⟨[⟨2, 0, some 5⟩], 0⟩ 0 (by decide)⟩

/-- C5: the call panics exactly when allocation fails on the
weakly-observed path (`strong == 1, weak > 0` at entry: the only path that
allocates), and whenever it panics the heap is returned exactly as it was —
no caller-visible state was mutated before the fault. -/
theorem c5_alloc_failure_only_fatal (allocOk : Bool) (env : List EnvOp)
    (h : Heap V) (a : Nat) :
    ((getMutDropWeak allocOk env h a).2 = .panicked ↔
      allocOk = false ∧ getMutPossible h a = false ∧ h.strongCount a ≤ 1) ∧
    ((getMutDropWeak allocOk env h a).2 = .panicked →
      (getMutDropWeak allocOk env h a).1 = h) := by
  by_cases hgm : getMutPossible h a
  · rw [getMutDropWeak_exclusive _ _ _ _ hgm]
    constructor
    · constructor
      · intro hcon; exact absurd hcon (by simp)
      · rintro ⟨-, hfalse, -⟩; rw [hgm] at hfalse; cases hfalse
    · intro hcon; exact absurd hcon (by simp)
  · replace hgm : getMutPossible h a = false := by simpa using hgm
    by_cases hstr : 1 < h.strongCount a
    · rw [getMutDropWeak_shared _ _ _ _ hgm hstr]
      constructor
      · constructor
        · intro hcon; exact absurd hcon (by simp)
        · rintro ⟨-, -, hle⟩; omega
      · intro hcon; exact absurd hcon (by simp)
    · cases allocOk with
      | false =>
        rw [getMutDropWeak_panic _ _ _ hgm hstr]
        exact ⟨⟨fun _ => ⟨rfl, hgm, by omega⟩, fun _ => rfl⟩, fun _ => rfl⟩
      | true =>
        have hnp : (getMutDropWeak true env h a).2 ≠ .panicked := by
          rw [getMutDropWeak_reloc _ _ _ hgm hstr]
          rcases htu : tryUnwrap (esteps (arcNewUninit h).1 env) a with ⟨h3, ov⟩
          cases ov with
          | none => dsimp only; simp
          | some v => dsimp only; simp
        constructor
        · constructor
          · intro hcon; exact absurd hcon hnp
          · rintro ⟨hfalse, -, -⟩; cases hfalse
        · intro hcon; exact absurd hcon hnp

/-- Witness for C5: with the allocation oracle reporting failure on a
weakly-observed cell (`strong = 1, weak = 2`), the call panics and the heap
is exactly the input heap. -/
theorem c5_alloc_failure_only_fatal_witness :
    ((getMutDropWeak false [] (⟨[⟨1, 2, some 50⟩], 0⟩ : Heap Nat) 0).2 =
        .panicked ↔
      false = false ∧
        getMutPossible (⟨[⟨1, 2, some 50⟩], 0⟩ : Heap Nat) 0 = false ∧
        Heap.strongCount (⟨[⟨1, 2, some 50⟩], 0⟩ : Heap Nat) 0 ≤ 1) ∧
    ((getMutDropWeak false [] (⟨[⟨1, 2, some 50⟩], 0⟩ : Heap Nat) 0).2 =
        .panicked →
      (getMutDropWeak false [] (⟨[⟨1, 2, some 50⟩], 0⟩ : Heap Nat) 0).1 =
        ⟨[⟨1, 2, some 50⟩], 0⟩) :=
  c5_alloc_failure_only_fatal false [] ⟨[⟨1, 2, some 50⟩], 0⟩ 0

/-- C9: every call terminates — the embedding is a total, non-recursive
function evaluated in finitely many primitive steps with no retry loop —
and it performs at most one heap allocation: the cell list never shrinks
and grows by at most one entry, for every path and every interference. -/
theorem c9_single_bounded_step (allocOk : Bool) (env : List EnvOp)
    (h : Heap V) (a : Nat) :
    h.cells.length ≤ ((getMutDropWeak allocOk env h a).1).cells.length ∧
    ((getMutDropWeak allocOk env h a).1).cells.length ≤ h.cells.length + 1 :=
  getMutDropWeak_length_bounds allocOk env h a

end GetMutDropWeak

namespace GetMutDropWeak

variable {V : Type}

/-- C1: for every `Arc` whose cell has `strong_count == 1` and
`weak_count > 0` (no interference), `get_mut_drop_weak` succeeds: the
caller's `Arc` variable now holds the freshly allocated address
`h.cells.length`, which differs from the original address `a`; the new
cell holds the original payload `v` with `strong_count = 1` and
`weak_count = 0`. -/
theorem c1_weakly_observed_relocates (h : Heap V) (a w : Nat) (v : V)
    (ha : a < h.cells.length) (hc : h.getCell a = ⟨1, w + 1, some v⟩) :
    (getMutDropWeak true [] h a).2 = .ok h.cells.length ∧
    h.cells.length ≠ a ∧
    ((getMutDropWeak true [] h a).1).getCell h.cells.length =
      ⟨1, 0, some v⟩ := by
  rw [getMutDropWeak_success_spec h a w v ha hc]
  refine ⟨rfl, Nat.ne_of_gt ha, ?_⟩
  dsimp only
  rw [getCell_setCell_self]
  rw [setCell_length, arcNewUninit_length]
  omega

/-- Witness for C1 on a concrete heap: one cell `strong = 1, weak = 2`
holding `50`, as in the test `test_weak_shared_drops_weak_success`. -/
theorem c1_weakly_observed_relocates_witness :
    (0 : Nat) < 1 ∧
    Heap.getCell (⟨[⟨1, 2, some 50⟩], 0⟩ : Heap Nat) 0 = ⟨1, 2, some 50⟩ ∧
    ((getMutDropWeak true [] (⟨[⟨1, 2, some 50⟩], 0⟩ : Heap Nat) 0).2 =
        .ok 1 ∧
      (1 : Nat) ≠ 0 ∧
      ((getMutDropWeak true [] (⟨[⟨1, 2, some 50⟩], 0⟩ : Heap Nat) 0).1).getCell 1 =
        ⟨1, 0, some 50⟩) :=
  ⟨by decide, by decide,
    c1_weakly_observed_relocates ⟨[⟨1, 2, some 50⟩], 0⟩ 0 1 50 (by decide) (by decide)⟩

/-- C2: after `get_mut_drop_weak` succeeds on a cell with
`strong_count == 1` and `weak_count > 0`, every weak handle that pointed
at the original cell (address `a`) fails to promote — `upgrade` returns
`false` and changes nothing — after *any* further sequence of system
steps, including clones, downgrades, promotions, handle drops, and more
`get_mut_drop_weak` calls: relocation is a permanent one-way severance. -/
theorem c2_severance_permanent (h : Heap V) (a w : Nat) (v : V)
    (ops : List Op) (ha : a < h.cells.length)
    (hc : h.getCell a = ⟨1, w + 1, some v⟩) :
    (getMutDropWeak true [] h a).2 = .ok h.cells.length ∧
    upgrade (run (getMutDropWeak true [] h a).1 ops) a =
      (run (getMutDropWeak true [] h a).1 ops, false) := by
  rw [getMutDropWeak_success_spec h a w v ha hc]
  dsimp only
  refine ⟨rfl, ?_⟩
  have hzero : ((run ((((arcNewUninit h).1).setCell a ⟨0, w + 1, none⟩).setCell
      h.cells.length ⟨1, 0, some v⟩) ops).getCell a).strong = 0 := by
    apply run_strong_zero
    · rw [setCell_length, setCell_length, arcNewUninit_length]
      omega
    · rw [getCell_setCell_ne _ _ _ _ (Nat.ne_of_gt ha), getCell_setCell_self]
      rw [arcNewUninit_length]
      omega
  simp [upgrade, hzero]

/-- Witness for C2: after relocating the concrete `strong = 1, weak = 2`
cell, promotion of the old weak handle still fails after further clones,
promotions, downgrades and another `get_mut_drop_weak` call. -/
theorem c2_severance_permanent_witness :
    (0 : Nat) < 1 ∧
    Heap.getCell (⟨[⟨1, 2, some 50⟩], 0⟩ : Heap Nat) 0 = ⟨1, 2, some 50⟩ ∧
    ((getMutDropWeak true [] (⟨[⟨1, 2, some 50⟩], 0⟩ : Heap Nat) 0).2 =
        .ok 1 ∧
      upgrade (run (getMutDropWeak true [] (⟨[⟨1, 2, some 50⟩], 0⟩ : Heap Nat) 0).1
          [.env (.up 0), .env (.clone 1), .env (.down 1), .gmdw true [] 1]) 0 =
        (run (getMutDropWeak true [] (⟨[⟨1, 2, some 50⟩], 0⟩ : Heap Nat) 0).1
          [.env (.up 0), .env (.clone 1), .env (.down 1), .gmdw true [] 1], false)) :=
  ⟨by decide, by decide,
    c2_severance_permanent ⟨[⟨1, 2, some 50⟩], 0⟩ 0 1 50
      [.env (.up 0), .env (.clone 1), .env (.down 1), .gmdw true [] 1]
      (by decide) (by decide)⟩

end GetMutDropWeak

namespace GetMutDropWeak

variable {V : Type}

/-- C8: the take-if-sole-owner step is the single atomic `tryUnwrap` step:
on the relocation path, whatever interference `env` other threads perform
before that instant, the relocation succeeds if and only if the strong
count of the original cell is exactly 1 at the instant of the attempt.
There is no separate observe-then-mutate pair for a concurrent promotion
to interleave into: the decision is a function of the state at that one
instant. -/
theorem c8_take_step_atomic (h : Heap V) (a w : Nat) (v : V)
    (env : List EnvOp) (ha : a < h.cells.length)
    (hc : h.getCell a = ⟨1, w + 1, some v⟩) :
    ((getMutDropWeak true env h a).2 = .ok h.cells.length ↔
      (esteps (arcNewUninit h).1 env).strongCount a = 1) := by
  rw [getMutDropWeak_reloc _ _ _ (getMutPossible_weakly h a w v hc)
    (strongCount_weakly h a w v hc)]
  have halive : ((esteps (arcNewUninit h).1 env).getCell a).strong = 0 ∨
      ((esteps (arcNewUninit h).1 env).getCell a).value = some v := by
    apply esteps_alive_value
    right
    rw [arcNewUninit_getCell_old h a ha, hc]
  set h2 := esteps (arcNewUninit h).1 env with hh2
  rcases htu : tryUnwrap h2 a with ⟨h3, ov⟩
  cases ov with
  | some v' =>
    obtain ⟨-, hstrong1, -⟩ := tryUnwrap_some_spec _ _ _ _ htu
    dsimp only
    exact ⟨fun _ => hstrong1, fun _ => rfl⟩
  | none =>
    dsimp only
    constructor
    · intro hcon; cases hcon
    · intro hstrong1
      rcases halive with h0 | hval
      · rw [Heap.strongCount, h0] at hstrong1; cases hstrong1
      · rw [tryUnwrap_success h2 a v hval hstrong1] at htu
        simp at htu

/-- Witness for C8: with one concurrent promotion of a weak handle in the
window, the take step sees `strong = 2` and the relocation does not
succeed; the equivalence is applied at that concrete input. -/
theorem c8_take_step_atomic_witness :
    (0 : Nat) < 1 ∧
    Heap.getCell (⟨[⟨1, 2, some 50⟩], 0⟩ : Heap Nat) 0 = ⟨1, 2, some 50⟩ ∧
    ((getMutDropWeak true [.up 0] (⟨[⟨1, 2, some 50⟩], 0⟩ : Heap Nat) 0).2 =
        .ok 1 ↔
      (esteps (arcNewUninit (⟨[⟨1, 2, some 50⟩], 0⟩ : Heap Nat)).1
          [.up 0]).strongCount 0 = 1) :=
  ⟨by decide, by decide,
    c8_take_step_atomic ⟨[⟨1, 2, some 50⟩], 0⟩ 0 1 50 [.up 0] (by decide) (by decide)⟩

/-- C4: when entry saw `strong == 1, weak > 0` but the atomic take step
fails because interference left the strong count different from 1
(a lost race), the call returns `Err` with the caller's variable still
holding address `a`, the original cell is exactly as the interference left
it (restored, untouched by the call), and this is literally the same
failure value the statically-observed Shared path (`strong > 1`) returns —
the two causes are indistinguishable to the caller. -/
theorem c4_lost_race_restores (h : Heap V) (a w : Nat) (v : V)
    (env : List EnvOp) (ha : a < h.cells.length)
    (hc : h.getCell a = ⟨1, w + 1, some v⟩)
    (hrace : (esteps (arcNewUninit h).1 env).strongCount a ≠ 1) :
    (getMutDropWeak true env h a).2 = .err a ∧
    ((getMutDropWeak true env h a).1).getCell a =
      (esteps (arcNewUninit h).1 env).getCell a ∧
    (∀ (hS : Heap V) (aS : Nat), 1 < hS.strongCount aS →
      (getMutDropWeak true env hS aS).2 = .err aS) := by
  rw [getMutDropWeak_reloc _ _ _ (getMutPossible_weakly h a w v hc)
    (strongCount_weakly h a w v hc)]
  rw [tryUnwrap_fail _ _ hrace]
  dsimp only
  refine ⟨rfl, ?_, ?_⟩
  · have := estep_getCell_ne (esteps (arcNewUninit h).1 env)
      (.dropA h.cells.length) a (Nat.ne_of_gt ha)
    simpa [estep] using this
  · intro hS aS hSgt
    have hgmS : getMutPossible hS aS = false := by
      have hne : ¬ hS.strongCount aS = 1 := by omega
      simp [getMutPossible, hne]
    rw [getMutDropWeak_shared true env hS aS hgmS hSgt]

/-- Witness for C4: a concurrent weak promotion (`up 0`) raises the strong
count to 2 before the take step; the call fails with `Err 0`, the original
cell keeps the promoted count, and a genuinely shared heap fails the same
way. -/
theorem c4_lost_race_restores_witness :
    (0 : Nat) < 1 ∧
    Heap.getCell (⟨[⟨1, 2, some 50⟩], 0⟩ : Heap Nat) 0 = ⟨1, 2, some 50⟩ ∧
    (esteps (arcNewUninit (⟨[⟨1, 2, some 50⟩], 0⟩ : Heap Nat)).1
        [.up 0]).strongCount 0 ≠ 1 ∧
    ((getMutDropWeak true [.up 0] (⟨[⟨1, 2, some 50⟩], 0⟩ : Heap Nat) 0).2 =
        .err 0 ∧
      ((getMutDropWeak true [.up 0] (⟨[⟨1, 2, some 50⟩], 0⟩ : Heap Nat) 0).1).getCell 0 =
        (esteps (arcNewUninit (⟨[⟨1, 2, some 50⟩], 0⟩ : Heap Nat)).1
          [.up 0]).getCell 0 ∧
      (∀ (hS : Heap Nat) (aS : Nat), 1 < hS.strongCount aS →
        (getMutDropWeak true [.up 0] hS aS).2 = .err aS)) :=
  ⟨by decide, by decide, by decide,
    c4_lost_race_restores ⟨[⟨1, 2, some 50⟩], 0⟩ 0 1 50 [.up 0]
      (by decide) (by decide) (by decide)⟩

end GetMutDropWeak

namespace GetMutDropWeak

variable {V : Type}

/-- C10: on the lost-race failure path (entry `strong == 1, weak > 0`,
then the take step fails), the call did allocate one cell (the list grew
by one), and the preallocated uninitialized cell at the fresh address is
discarded: it ends with no owner, no weak reference and no payload, the
destructor counter is exactly what the interference left (the discard ran
no destructor), and the original cell with its payload is untouched by the
call. -/
theorem c10_failed_race_discards_alloc (h : Heap V) (a w : Nat) (v : V)
    (env : List EnvOp) (ha : a < h.cells.length)
    (hc : h.getCell a = ⟨1, w + 1, some v⟩)
    (henv : ∀ e ∈ env, e.addr < h.cells.length)
    (hrace : (esteps (arcNewUninit h).1 env).strongCount a ≠ 1) :
    (getMutDropWeak true env h a).2 = .err a ∧
    ((getMutDropWeak true env h a).1).cells.length = h.cells.length + 1 ∧
    ((getMutDropWeak true env h a).1).getCell h.cells.length = ⟨0, 0, none⟩ ∧
    ((getMutDropWeak true env h a).1).drops =
      (esteps (arcNewUninit h).1 env).drops ∧
    ((getMutDropWeak true env h a).1).getCell a =
      (esteps (arcNewUninit h).1 env).getCell a := by
  rw [getMutDropWeak_reloc _ _ _ (getMutPossible_weakly h a w v hc)
    (strongCount_weakly h a w v hc)]
  rw [tryUnwrap_fail _ _ hrace]
  dsimp only
  set h2 := esteps (arcNewUninit h).1 env with hh2
  have h2na : h2.getCell h.cells.length = ⟨1, 0, none⟩ := by
    rw [hh2, esteps_getCell_ne _ _ _ (fun e he => Nat.ne_of_lt (henv e he)),
      arcNewUninit_getCell_fresh]
  have h2len : h2.cells.length = h.cells.length + 1 := by
    rw [hh2, esteps_length, arcNewUninit_length]
  have hdrop : dropArc h2 h.cells.length =
      ⟨h2.cells.set h.cells.length ⟨0, 0, none⟩, h2.drops⟩ := by
    simp [dropArc, h2na]
  rw [hdrop]
  refine ⟨rfl, ?_, ?_, rfl, ?_⟩
  · simp [List.length_set, h2len]
  · rw [getCell_mk_set, if_pos ⟨rfl, by omega⟩]
  · rw [getCell_mk_set, if_neg (fun hcon => absurd hcon.1 (Nat.ne_of_gt ha))]

/-- Witness for C10: a concurrent promotion makes the take step fail; the
call still allocated cell 1 and then discarded it as `⟨0, 0, none⟩`
without touching the destructor counter or the original cell. -/
theorem c10_failed_race_discards_alloc_witness :
    (0 : Nat) < 1 ∧
    Heap.getCell (⟨[⟨1, 2, some 50⟩], 0⟩ : Heap Nat) 0 = ⟨1, 2, some 50⟩ ∧
    (∀ e ∈ ([.up 0] : List EnvOp), e.addr < 1) ∧
    (esteps (arcNewUninit (⟨[⟨1, 2, some 50⟩], 0⟩ : Heap Nat)).1
        [.up 0]).strongCount 0 ≠ 1 ∧
    ((getMutDropWeak true [.up 0] (⟨[⟨1, 2, some 50⟩], 0⟩ : Heap Nat) 0).2 =
        .err 0 ∧
      ((getMutDropWeak true [.up 0] (⟨[⟨1, 2, some 50⟩], 0⟩ : Heap Nat) 0).1).cells.length =
        2 ∧
      ((getMutDropWeak true [.up 0] (⟨[⟨1, 2, some 50⟩], 0⟩ : Heap Nat) 0).1).getCell 1 =
        ⟨0, 0, none⟩ ∧
      ((getMutDropWeak true [.up 0] (⟨[⟨1, 2, some 50⟩], 0⟩ : Heap Nat) 0).1).drops =
        (esteps (arcNewUninit (⟨[⟨1, 2, some 50⟩], 0⟩ : Heap Nat)).1 [.up 0]).drops ∧
      ((getMutDropWeak true [.up 0] (⟨[⟨1, 2, some 50⟩], 0⟩ : Heap Nat) 0).1).getCell 0 =
        (esteps (arcNewUninit (⟨[⟨1, 2, some 50⟩], 0⟩ : Heap Nat)).1 [.up 0]).getCell 0) :=
  ⟨by decide, by decide, by decide, by decide,
    c10_failed_race_discards_alloc ⟨[⟨1, 2, some 50⟩], 0⟩ 0 1 50 [.up 0]
      (by decide) (by decide) (by decide) (by decide)⟩

/-- C3: the payload's destructor runs exactly once.  Starting from a fresh
cell holding `v`, after any legal sequence of system steps (clones,
downgrades, promotions, handle drops, and `get_mut_drop_weak` calls,
successful or failed) that ends with every owner handle dropped, the
destructor counter is exactly 1 — never 0, never 2.  Moreover a
`get_mut_drop_weak` call itself never runs the destructor on any path:
relocation moves the payload without dropping it, and the Shared or panic
paths touch nothing. -/
theorem c3_teardown_exactly_once (v : V) (ops : List Op)
    (hlegal : legalb (arcNew Heap.empty v).1 ops = true)
    (hdead : allStrongZero (run (arcNew Heap.empty v).1 ops) = true) :
    (run (arcNew Heap.empty v).1 ops).drops = 1 ∧
    ∀ (allocOk : Bool) (h : Heap V) (b : Nat),
      ((getMutDropWeak allocOk [] h b).1).drops = h.drops := by
  constructor
  · have hinv := run_drops_live (arcNew Heap.empty v).1 ops
    have hstart_drops : ((arcNew Heap.empty v).1).drops = 0 := rfl
    have hstart_live : livePayloads (arcNew Heap.empty v).1 = 1 := by
      simp [livePayloads, arcNew, Heap.empty]
    have hgood : goodHeap (run (arcNew Heap.empty v).1 ops) := by
      apply run_good _ _ _ hlegal
      intro c hcmem hsome
      simp only [arcNew, Heap.empty, List.nil_append,
        List.mem_singleton] at hcmem
      subst hcmem
      simp
    have hlive0 : livePayloads (run (arcNew Heap.empty v).1 ops) = 0 := by
      simp only [livePayloads]
      rw [List.countP_eq_zero]
      intro c hcmem hsome
      simp only [allStrongZero, List.all_eq_true] at hdead
      have hz := hdead c hcmem
      have hpos := hgood c hcmem hsome
      simp only [beq_iff_eq] at hz
      omega
    omega
  · intro allocOk h b
    by_cases hgm : getMutPossible h b
    · rw [getMutDropWeak_exclusive _ _ _ _ hgm]
    · replace hgm : getMutPossible h b = false := by simpa using hgm
      by_cases hstr : 1 < h.strongCount b
      · rw [getMutDropWeak_shared _ _ _ _ hgm hstr]
      · cases allocOk with
        | false => rw [getMutDropWeak_panic _ _ _ hgm hstr]
        | true =>
          rw [getMutDropWeak_reloc _ _ _ hgm hstr]
          have hesteps : esteps (arcNewUninit h).1 [] = (arcNewUninit h).1 := rfl
          rw [hesteps]
          rcases htu : tryUnwrap (arcNewUninit h).1 b with ⟨h3, ov⟩
          cases ov with
          | none =>
            have h3eq : h3 = (arcNewUninit h).1 := tryUnwrap_none_heap _ _ _ htu
            subst h3eq
            dsimp only
            have hdrop : dropArc (arcNewUninit h).1 h.cells.length =
                ⟨((arcNewUninit h).1).cells.set h.cells.length ⟨0, 0, none⟩,
                  ((arcNewUninit h).1).drops⟩ := by
              simp [dropArc, arcNewUninit_getCell_fresh]
            rw [hdrop]
            exact arcNewUninit_drops h
          | some v' =>
            obtain ⟨-, -, h3eq⟩ := tryUnwrap_some_spec _ _ _ _ htu
            dsimp only
            rw [setCell_drops, h3eq, setCell_drops]
            exact arcNewUninit_drops h

/-- Witness for C3: downgrade once, relocate via `get_mut_drop_weak`, then
drop the final handle: the destructor counter ends at exactly 1; and a
relocating call on another heap leaves its counter (3) untouched. -/
theorem c3_teardown_exactly_once_witness :
    legalb (arcNew Heap.empty (42 : Nat)).1
        [.env (.down 0), .gmdw true [] 0, .env (.dropA 1)] = true ∧
    allStrongZero (run (arcNew Heap.empty (42 : Nat)).1
        [.env (.down 0), .gmdw true [] 0, .env (.dropA 1)]) = true ∧
    ((run (arcNew Heap.empty (42 : Nat)).1
        [.env (.down 0), .gmdw true [] 0, .env (.dropA 1)]).drops = 1 ∧
      ((getMutDropWeak true [] (⟨[⟨1, 5, some 7⟩], 3⟩ : Heap Nat) 0).1).drops = 3) :=
  ⟨by decide, by decide,
    (c3_teardown_exactly_once 42
      [.env (.down 0), .gmdw true [] 0, .env (.dropA 1)]
      (by decide) (by decide)).1,
    (c3_teardown_exactly_once 42
      [.env (.down 0), .gmdw true [] 0, .env (.dropA 1)]
      (by decide) (by decide)).2 true ⟨[⟨1, 5, some 7⟩], 3⟩ 0⟩

end GetMutDropWeak
